import Mathlib

/-! Shallow embedding of the `system-cnf` crate (`src/system-cnf/src/lib.rs`),
a parser and serializer for PS2 `SYSTEM.CNF` files.

Strings are modelled as `List Char`.  The helpers `splitChar`, `rustLines`,
`rustTrim` and `stripSuffix` embed the Rust standard-library operations the
crate uses (`str::split`, `str::lines`, `str::trim`,
`str::strip_suffix(..).unwrap_or(..)`); `parse` embeds `SystemCnf::parse` and
`encode` embeds the crate's `Display` implementation. -/

/-- Shorthand turning a Lean string literal into the `List Char` representation
used throughout this development. -/
def str (s : String) : List Char := s.toList

/-- Whitespace test: the ASCII fragment of Rust's `char::is_whitespace`
(space, tab, line feed, vertical tab, form feed, carriage return).  The
non-ASCII code points of Unicode `White_Space` do not occur in any input of
interest here. -/
def isWs (c : Char) : Bool :=
  c = ' ' || c = '\t' || c = '\n' || c = '\r' || c = Char.ofNat 11 || c = Char.ofNat 12

/-- Embeds `str::trim_start`: drop leading whitespace. -/
def trimLeft (l : List Char) : List Char := l.dropWhile isWs

/-- Embeds `str::trim_end`: drop trailing whitespace. -/
def trimRight (l : List Char) : List Char := (l.reverse.dropWhile isWs).reverse

/-- Embeds `str::trim`: drop leading and trailing whitespace. -/
def rustTrim (l : List Char) : List Char := trimRight (trimLeft l)

/-- Embeds `str::split(sep)`: the segments between occurrences of `sep`.
Like the Rust iterator, it always yields at least one segment. -/
def splitChar (sep : Char) : List Char → List (List Char)
  | [] => [[]]
  | c :: cs =>
    if c = sep then [] :: splitChar sep cs
    else
      match splitChar sep cs with
      | [] => [[c]]
      | p :: ps => (c :: p) :: ps

/-- Drop one trailing carriage return, as `str::lines` does on each line. -/
def stripCr (l : List Char) : List Char :=
  if l.getLast? = some '\r' then l.dropLast else l

/-- Embeds `str::lines`: split on `'\n'`, drop the final empty segment a
trailing terminator produces, and strip one trailing `'\r'` per line. -/
def rustLines (s : List Char) : List (List Char) :=
  let ps := splitChar '\n' s
  (if ps.getLast? = some [] then ps.dropLast else ps).map stripCr

/-- Embeds `str::strip_suffix(suf).unwrap_or(self)`: remove `suf` when it is
a suffix, otherwise return the string unchanged. -/
def stripSuffix (suf l : List Char) : List Char :=
  if suf.isSuffixOf l then l.take (l.length - suf.length) else l

/-- The crate's `Error` enum. -/
inductive Error where
  | MalformedFile
  | MissingField
  | UnknownVideoMode
  deriving DecidableEq, Repr

/-- The crate's `VideoMode` enum. -/
inductive VideoMode where
  | Ntsc
  | Pal
  deriving DecidableEq, Repr

/-- Embeds `VideoMode::as_str`. -/
def VideoMode.asStr : VideoMode → List Char
  | .Ntsc => str "NTSC"
  | .Pal => str "PAL"

/-- Embeds `impl FromStr for VideoMode` (`from_str` matches on `s.trim()`). -/
def VideoMode.fromStr (s : List Char) : Except Error VideoMode :=
  if rustTrim s = str "NTSC" then .ok .Ntsc
  else if rustTrim s = str "PAL" then .ok .Pal
  else .error .UnknownVideoMode

/-- The crate's `SystemCnf` struct (fully parsed record). -/
structure SystemCnf where
  elf_path : List Char
  version : List Char
  video_mode : VideoMode
  hdd_unit_power : Option (List Char)
  deriving DecidableEq, Repr

/-- The mutable accumulator of `SystemCnf::parse`: the four `let mut ... = None`
slots filled while scanning the lines. -/
structure ParseState where
  elf_path : Option (List Char)
  version : Option (List Char)
  video_mode : Option VideoMode
  hdd_unit_power : Option (List Char)
  deriving DecidableEq, Repr

/-- The initial all-`None` accumulator. -/
def initState : ParseState := ⟨none, none, none, none⟩

/-- Embeds one iteration of the `for line in raw_cnf.lines()` loop of
`SystemCnf::parse`: split the line on `'='`, take the first two segments as
key and value (each `next()` failing with `MalformedFile`), and dispatch on
the trimmed key. -/
def step (st : ParseState) (line : List Char) : Except Error ParseState :=
  match splitChar '=' line with
  | [] => .error .MalformedFile
  | [_] => .error .MalformedFile
  | key :: value :: _ =>
    if rustTrim key = str "BOOT2" then
      .ok { st with elf_path := some (stripSuffix (str ";1") (rustTrim value)) }
    else if rustTrim key = str "VER" then
      .ok { st with version := some (rustTrim value) }
    else if rustTrim key = str "VMODE" then
      match VideoMode.fromStr value with
      | .ok vm => .ok { st with video_mode := some vm }
      | .error e => .error e
    else if rustTrim key = str "HDDUNITPOWER" then
      .ok { st with hdd_unit_power := some (rustTrim value) }
    else .ok st

/-- The whole scanning loop of `SystemCnf::parse`: fold `step` over the lines,
aborting at the first error (the `?` operator). -/
def runLines : ParseState → List (List Char) → Except Error ParseState
  | st, [] => .ok st
  | st, l :: ls =>
    match step st l with
    | .ok st' => runLines st' ls
    | .error e => .error e

/-- Embeds the final `Ok(Self { ... })` of `SystemCnf::parse`: each required
slot is unwrapped with `ok_or(Error::MissingField)?`. -/
def finalize (st : ParseState) : Except Error SystemCnf :=
  match st.elf_path with
  | none => .error .MissingField
  | some p =>
    match st.version with
    | none => .error .MissingField
    | some v =>
      match st.video_mode with
      | none => .error .MissingField
      | some m => .ok ⟨p, v, m, st.hdd_unit_power⟩

/-- Embeds `SystemCnf::parse`. -/
def parse (raw : List Char) : Except Error SystemCnf :=
  match runLines initState (rustLines raw) with
  | .ok st => finalize st
  | .error e => .error e

/-- Embeds `impl Display for SystemCnf`: the two `write!` calls producing
`BOOT2 = {};1\r\nVER = {}\r\nVMODE = {}\r\n` and, when the flag is present,
`HDDUNITPOWER = {}\r\n`. -/
def encode (c : SystemCnf) : List Char :=
  str "BOOT2 = " ++ c.elf_path ++ str ";1\r\nVER = " ++ c.version ++
    str "\r\nVMODE = " ++ c.video_mode.asStr ++ str "\r\n" ++
    (match c.hdd_unit_power with
     | some h => str "HDDUNITPOWER = " ++ h ++ str "\r\n"
     | none => [])

/-- Observer: the key segment a line's `kv_iter.next()` yields (the first
segment of the split; defaults to `[]`, which never occurs). -/
def segKey (l : List Char) : List Char := (splitChar '=' l).headI

/-- Observer: the value segment the second `kv_iter.next()` yields (the second
segment of the split; defaults to `[]` when the line has no `'='`). -/
def segVal (l : List Char) : List Char := ((splitChar '=' l).drop 1).headI

/-- A line that the scanning loop processes without aborting: it contains an
`'='`, and if its key is `VMODE` its value parses as a video mode (the only
other error source inside the loop). -/
def lineOk (l : List Char) : Prop :=
  '=' ∈ l ∧
    (rustTrim (segKey l) = str "VMODE" →
      VideoMode.fromStr (segVal l) ≠ .error .UnknownVideoMode)

deriving instance DecidableEq for Except

instance : DecidablePred lineOk := fun l => by
  unfold lineOk
  infer_instance

/-- Well-formedness of an optional `HDDUNITPOWER` value: absent, or free of
newlines and `'='` and carrying no surrounding whitespace. -/
def hddWf : Option (List Char) → Prop
  | none => True
  | some h => '\n' ∉ h ∧ '=' ∉ h ∧ trimLeft h = h ∧ trimRight h = h

/-- Records whose text fields survive the decode of their own encoding: no
newline or `'='` inside any field, no leading whitespace on the entry path
(its tail is protected by the re-appended `;1`), and no surrounding
whitespace on the version and power-flag fields. -/
def WellFormed (r : SystemCnf) : Prop :=
  '\n' ∉ r.elf_path ∧ '=' ∉ r.elf_path ∧ trimLeft r.elf_path = r.elf_path ∧
  '\n' ∉ r.version ∧ '=' ∉ r.version ∧ trimLeft r.version = r.version ∧
  trimRight r.version = r.version ∧ hddWf r.hdd_unit_power

/-- Concrete input of the repository's unit tests: the canonical three-line
`SYSTEM.CNF` of `SLUS_213.48`. -/
def testCnf : List Char :=
  str "BOOT2 = cdrom0:\\SLUS_213.48;1\r\nVER = 1.00\r\nVMODE = NTSC\r\n"

/-- An input whose three keyed lines are all well formed but which contains
one empty line (the blank line between `BOOT2` and `VER`). -/
def c3input : List Char :=
  str "BOOT2 = a;1\r\n\r\nVER = 1.00\r\nVMODE = NTSC\r\n"

/-- An input whose first line carries an unrecognized video mode and whose
second line has no `'='`. -/
def c7input : List Char := str "VMODE = X\r\nnoequals"

/-- Sanity check reproducing the repository's `decode` unit test. -/
theorem sanity_decode :
    parse testCnf = .ok ⟨str "cdrom0:\\SLUS_213.48", str "1.00", .Ntsc, none⟩ := by
  decide

/-- Sanity check reproducing the repository's `encode` unit test. -/
theorem sanity_encode :
    encode ⟨str "cdrom0:\\SLUS_213.48", str "1.00", .Ntsc, none⟩ = testCnf := by
  decide

/-! ### Basic lemmas about the embedded string operations -/

theorem splitChar_ne_nil (sep : Char) (l : List Char) : splitChar sep l ≠ [] := by
  cases l with
  | nil => simp [splitChar]
  | cons c cs =>
    simp only [splitChar]
    split
    · simp
    · split <;> simp

theorem splitChar_not_mem (sep : Char) (l : List Char) (h : sep ∉ l) :
    splitChar sep l = [l] := by
  induction l with
  | nil => rfl
  | cons c cs ih =>
    simp only [List.mem_cons, not_or] at h
    obtain ⟨h1, h2⟩ := h
    have hc : ¬(c = sep) := fun hh => h1 hh.symm
    simp only [splitChar, if_neg hc, ih h2]

theorem splitChar_append_cons (sep : Char) (a b : List Char) (h : sep ∉ a) :
    splitChar sep (a ++ sep :: b) = a :: splitChar sep b := by
  induction a with
  | nil => simp [splitChar]
  | cons c cs ih =>
    simp only [List.mem_cons, not_or] at h
    obtain ⟨h1, h2⟩ := h
    have hc : ¬(c = sep) := fun hh => h1 hh.symm
    simp only [List.cons_append, splitChar, if_neg hc, List.append_eq, ih h2]

theorem splitChar_of_mem (sep : Char) (l : List Char) (h : sep ∈ l) :
    ∃ k v rest, splitChar sep l = k :: v :: rest := by
  induction l with
  | nil => cases h
  | cons c cs ih =>
    by_cases hc : c = sep
    · subst hc
      rcases hs : splitChar c cs with _ | ⟨p, ps⟩
      · exact absurd hs (splitChar_ne_nil _ _)
      · exact ⟨[], p, ps, by simp [splitChar, hs]⟩
    · have hmem : sep ∈ cs := by
        rcases List.mem_cons.mp h with h' | h'
        · exact absurd h'.symm hc
        · exact h'
      obtain ⟨k, v, rest, hk⟩ := ih hmem
      exact ⟨c :: k, v, rest, by simp [splitChar, if_neg hc, hk]⟩

theorem isWs_head_false (c : Char) (cs : List Char)
    (h : List.dropWhile isWs (c :: cs) = c :: cs) : isWs c = false := by
  by_contra hc
  rw [Bool.not_eq_false] at hc
  have h1 : List.dropWhile isWs (c :: cs) = List.dropWhile isWs cs := by
    simp [List.dropWhile_cons, hc]
  have h2 : (List.dropWhile isWs cs).length ≤ cs.length :=
    (List.dropWhile_sublist isWs).length_le
  rw [h] at h1
  have h3 := congrArg List.length h1
  simp only [List.length_cons] at h3
  omega

theorem dropWhile_isWs_append (q t : List Char) (hq : List.dropWhile isWs q = q)
    (h0 : q ≠ []) : List.dropWhile isWs (q ++ t) = q ++ t := by
  cases q with
  | nil => exact absurd rfl h0
  | cons d ds =>
    have hd : isWs d = false := isWs_head_false d ds hq
    simp [List.dropWhile_cons, hd]

theorem trimLeft_append (p q : List Char) (hp : trimLeft p = p) (hq : trimLeft q = q) :
    trimLeft (p ++ q) = p ++ q := by
  cases p with
  | nil => simpa using hq
  | cons c cs => exact dropWhile_isWs_append (c :: cs) q hp (by simp)

theorem trimRight_append (p q : List Char) (hq : trimRight q = q) (h0 : q ≠ []) :
    trimRight (p ++ q) = p ++ q := by
  have hq' : List.dropWhile isWs q.reverse = q.reverse := by
    have h1 := congrArg List.reverse hq
    rwa [trimRight, List.reverse_reverse] at h1
  have h0' : q.reverse ≠ [] := by simpa using h0
  unfold trimRight
  rw [List.reverse_append, dropWhile_isWs_append _ _ hq' h0', List.reverse_append,
    List.reverse_reverse, List.reverse_reverse]

theorem rustTrim_cons_ws (c : Char) (l : List Char) (h : isWs c = true) :
    rustTrim (c :: l) = rustTrim l := by
  simp [rustTrim, trimLeft, List.dropWhile_cons, h]

theorem rustTrim_of_clean (l : List Char) (h1 : trimLeft l = l) (h2 : trimRight l = l) :
    rustTrim l = l := by
  rw [rustTrim, h1, h2]

theorem rustTrim_value_boot (P : List Char) (hP : trimLeft P = P) :
    rustTrim (' ' :: (P ++ str ";1")) = P ++ str ";1" := by
  rw [rustTrim_cons_ws _ _ (by decide)]
  exact rustTrim_of_clean _ (trimLeft_append _ _ hP (by decide))
    (trimRight_append _ _ (by decide) (by decide))

theorem rustTrim_value_plain (V : List Char) (hl : trimLeft V = V) (hr : trimRight V = V) :
    rustTrim (' ' :: V) = V := by
  rw [rustTrim_cons_ws _ _ (by decide)]
  exact rustTrim_of_clean _ hl hr

theorem stripSuffix_append (s x : List Char) : stripSuffix s (x ++ s) = x := by
  unfold stripSuffix
  rw [if_pos]
  · have h1 : (x ++ s).length - s.length = x.length := by simp [List.length_append]
    rw [h1, List.take_left]
  · rw [List.isSuffixOf_iff_suffix]
    exact List.suffix_append _ _

theorem stripCr_concat (x : List Char) : stripCr (x ++ ['\r']) = x := by
  unfold stripCr
  rw [List.getLast?_concat, if_pos rfl, List.dropLast_concat]

/-! ### Lemmas about one loop iteration (`step`) -/

theorem fromStr_error (s : List Char) (e : Error)
    (h : VideoMode.fromStr s = .error e) : e = .UnknownVideoMode := by
  unfold VideoMode.fromStr at h
  split_ifs at h
  cases h
  rfl

theorem step_eq_of_split (st : ParseState) (l k v : List Char) (rest : List (List Char))
    (h : splitChar '=' l = k :: v :: rest) :
    step st l =
      if rustTrim k = str "BOOT2" then
        .ok { st with elf_path := some (stripSuffix (str ";1") (rustTrim v)) }
      else if rustTrim k = str "VER" then
        .ok { st with version := some (rustTrim v) }
      else if rustTrim k = str "VMODE" then
        match VideoMode.fromStr v with
        | .ok vm => .ok { st with video_mode := some vm }
        | .error e => .error e
      else if rustTrim k = str "HDDUNITPOWER" then
        .ok { st with hdd_unit_power := some (rustTrim v) }
      else .ok st := by
  rw [step.eq_def, h]

theorem segKey_of_split (l k v : List Char) (rest : List (List Char))
    (h : splitChar '=' l = k :: v :: rest) : segKey l = k := by
  simp [segKey, h]

theorem segVal_of_split (l k v : List Char) (rest : List (List Char))
    (h : splitChar '=' l = k :: v :: rest) : segVal l = v := by
  simp [segVal, h]

theorem step_no_eq (st : ParseState) (l : List Char) (h : '=' ∉ l) :
    step st l = .error .MalformedFile := by
  rw [step.eq_def, splitChar_not_mem _ _ h]

theorem step_ok_elf_eq (st st' : ParseState) (l : List Char) (h : step st l = .ok st')
    (hk : rustTrim (segKey l) = str "BOOT2") :
    st'.elf_path = some (stripSuffix (str ";1") (rustTrim (segVal l))) := by
  by_cases hm : '=' ∈ l
  · obtain ⟨k, v, rest, hs⟩ := splitChar_of_mem '=' l hm
    rw [segKey_of_split _ _ _ _ hs] at hk
    rw [step_eq_of_split st l k v rest hs, if_pos hk] at h
    cases h
    rw [segVal_of_split _ _ _ _ hs]
  · rw [step_no_eq st l hm] at h
    cases h

theorem step_ok_elf_ne (st st' : ParseState) (l : List Char) (h : step st l = .ok st')
    (hk : rustTrim (segKey l) ≠ str "BOOT2") : st'.elf_path = st.elf_path := by
  by_cases hm : '=' ∈ l
  · obtain ⟨k, v, rest, hs⟩ := splitChar_of_mem '=' l hm
    rw [segKey_of_split _ _ _ _ hs] at hk
    rw [step_eq_of_split st l k v rest hs, if_neg hk] at h
    split_ifs at h with h1 h2 h3
    · cases h
      rfl
    · cases hv : VideoMode.fromStr v with
      | error e => rw [hv] at h; cases h
      | ok m => rw [hv] at h; cases h; rfl
    · cases h
      rfl
    · cases h
      rfl
  · rw [step_no_eq st l hm] at h
    cases h

theorem step_ok_version_eq (st st' : ParseState) (l : List Char) (h : step st l = .ok st')
    (hk : rustTrim (segKey l) = str "VER") :
    st'.version = some (rustTrim (segVal l)) := by
  by_cases hm : '=' ∈ l
  · obtain ⟨k, v, rest, hs⟩ := splitChar_of_mem '=' l hm
    rw [segKey_of_split _ _ _ _ hs] at hk
    have hb : rustTrim k ≠ str "BOOT2" := by rw [hk]; decide
    rw [step_eq_of_split st l k v rest hs, if_neg hb, if_pos hk] at h
    cases h
    rw [segVal_of_split _ _ _ _ hs]
  · rw [step_no_eq st l hm] at h
    cases h

theorem step_ok_version_ne (st st' : ParseState) (l : List Char) (h : step st l = .ok st')
    (hk : rustTrim (segKey l) ≠ str "VER") : st'.version = st.version := by
  by_cases hm : '=' ∈ l
  · obtain ⟨k, v, rest, hs⟩ := splitChar_of_mem '=' l hm
    rw [segKey_of_split _ _ _ _ hs] at hk
    rw [step_eq_of_split st l k v rest hs] at h
    split_ifs at h with h1 h2 h3
    · cases h
      rfl
    · cases hv : VideoMode.fromStr v with
      | error e => rw [hv] at h; cases h
      | ok m => rw [hv] at h; cases h; rfl
    · cases h
      rfl
    · cases h
      rfl
  · rw [step_no_eq st l hm] at h
    cases h

theorem step_ok_vmode_eq (st st' : ParseState) (l : List Char) (h : step st l = .ok st')
    (hk : rustTrim (segKey l) = str "VMODE") :
    ∃ m, VideoMode.fromStr (segVal l) = .ok m ∧ st'.video_mode = some m := by
  by_cases hm : '=' ∈ l
  · obtain ⟨k, v, rest, hs⟩ := splitChar_of_mem '=' l hm
    rw [segKey_of_split _ _ _ _ hs] at hk
    have hb : rustTrim k ≠ str "BOOT2" := by rw [hk]; decide
    have hv2 : rustTrim k ≠ str "VER" := by rw [hk]; decide
    rw [step_eq_of_split st l k v rest hs, if_neg hb, if_neg hv2, if_pos hk] at h
    cases hv : VideoMode.fromStr v with
    | error e => rw [hv] at h; cases h
    | ok m =>
      rw [hv] at h
      cases h
      refine ⟨m, ?_, rfl⟩
      rw [segVal_of_split _ _ _ _ hs]
      exact hv
  · rw [step_no_eq st l hm] at h
    cases h

theorem step_ok_vmode_ne (st st' : ParseState) (l : List Char) (h : step st l = .ok st')
    (hk : rustTrim (segKey l) ≠ str "VMODE") : st'.video_mode = st.video_mode := by
  by_cases hm : '=' ∈ l
  · obtain ⟨k, v, rest, hs⟩ := splitChar_of_mem '=' l hm
    rw [segKey_of_split _ _ _ _ hs] at hk
    rw [step_eq_of_split st l k v rest hs] at h
    split_ifs at h with h1 h2 h3
    · cases h
      rfl
    · cases h
      rfl
    · cases h
      rfl
    · cases h
      rfl
  · rw [step_no_eq st l hm] at h
    cases h

theorem step_ok_hdd_eq (st st' : ParseState) (l : List Char) (h : step st l = .ok st')
    (hk : rustTrim (segKey l) = str "HDDUNITPOWER") :
    st'.hdd_unit_power = some (rustTrim (segVal l)) := by
  by_cases hm : '=' ∈ l
  · obtain ⟨k, v, rest, hs⟩ := splitChar_of_mem '=' l hm
    rw [segKey_of_split _ _ _ _ hs] at hk
    have hb : rustTrim k ≠ str "BOOT2" := by rw [hk]; decide
    have hv2 : rustTrim k ≠ str "VER" := by rw [hk]; decide
    have hv3 : rustTrim k ≠ str "VMODE" := by rw [hk]; decide
    rw [step_eq_of_split st l k v rest hs, if_neg hb, if_neg hv2, if_neg hv3,
      if_pos hk] at h
    cases h
    rw [segVal_of_split _ _ _ _ hs]
  · rw [step_no_eq st l hm] at h
    cases h

theorem step_ok_hdd_ne (st st' : ParseState) (l : List Char) (h : step st l = .ok st')
    (hk : rustTrim (segKey l) ≠ str "HDDUNITPOWER") :
    st'.hdd_unit_power = st.hdd_unit_power := by
  by_cases hm : '=' ∈ l
  · obtain ⟨k, v, rest, hs⟩ := splitChar_of_mem '=' l hm
    rw [segKey_of_split _ _ _ _ hs] at hk
    rw [step_eq_of_split st l k v rest hs] at h
    split_ifs at h with h1 h2 h3
    · cases h
      rfl
    · cases h
      rfl
    · cases hv : VideoMode.fromStr v with
      | error e => rw [hv] at h; cases h
      | ok m => rw [hv] at h; cases h; rfl
    · cases h
      rfl
  · rw [step_no_eq st l hm] at h
    cases h

theorem step_ok_of_lineOk (st : ParseState) (l : List Char) (h : lineOk l) :
    ∃ st', step st l = .ok st' := by
  obtain ⟨hm, hvm⟩ := h
  obtain ⟨k, v, rest, hs⟩ := splitChar_of_mem '=' l hm
  rw [step_eq_of_split st l k v rest hs]
  split_ifs with h1 h2 h3
  · exact ⟨_, rfl⟩
  · exact ⟨_, rfl⟩
  · cases hv : VideoMode.fromStr v with
    | error e =>
      have he := fromStr_error _ _ hv
      subst he
      rw [segKey_of_split _ _ _ _ hs] at hvm
      rw [segVal_of_split _ _ _ _ hs] at hvm
      exact absurd hv (hvm h3)
    | ok m => exact ⟨_, rfl⟩
  · exact ⟨_, rfl⟩
  · exact ⟨_, rfl⟩

theorem step_unknown (st : ParseState) (l : List Char) (hm : '=' ∈ l)
    (hk : rustTrim (segKey l) = str "VMODE")
    (hb : VideoMode.fromStr (segVal l) = .error .UnknownVideoMode) :
    step st l = .error .UnknownVideoMode := by
  obtain ⟨k, v, rest, hs⟩ := splitChar_of_mem '=' l hm
  rw [segKey_of_split _ _ _ _ hs] at hk
  rw [segVal_of_split _ _ _ _ hs] at hb
  have h1 : rustTrim k ≠ str "BOOT2" := by rw [hk]; decide
  have h2 : rustTrim k ≠ str "VER" := by rw [hk]; decide
  rw [step_eq_of_split st l k v rest hs, if_neg h1, if_neg h2, if_pos hk, hb]

theorem step_malformed_not_mem (st : ParseState) (l : List Char)
    (h : step st l = .error .MalformedFile) : '=' ∉ l := by
  intro hmem
  obtain ⟨k, v, rest, hs⟩ := splitChar_of_mem '=' l hmem
  rw [step_eq_of_split st l k v rest hs] at h
  split_ifs at h
  cases hv : VideoMode.fromStr v with
  | error e =>
    rw [hv] at h
    cases h
    have := fromStr_error _ _ hv
    simp at this
  | ok m => rw [hv] at h; cases h

theorem step_ok_unrecognized (st : ParseState) (l : List Char) (hm : '=' ∈ l)
    (h1 : rustTrim (segKey l) ≠ str "BOOT2") (h2 : rustTrim (segKey l) ≠ str "VER")
    (h3 : rustTrim (segKey l) ≠ str "VMODE")
    (h4 : rustTrim (segKey l) ≠ str "HDDUNITPOWER") : step st l = .ok st := by
  obtain ⟨k, v, rest, hs⟩ := splitChar_of_mem '=' l hm
  rw [segKey_of_split _ _ _ _ hs] at h1 h2 h3 h4
  rw [step_eq_of_split st l k v rest hs, if_neg h1, if_neg h2, if_neg h3, if_neg h4]

/-! ### Lemmas about the scanning loop (`runLines`) -/

theorem runLines_nil (st : ParseState) : runLines st [] = .ok st := rfl

theorem runLines_cons_ok (st s : ParseState) (l : List Char) (ls : List (List Char))
    (h : step st l = .ok s) : runLines st (l :: ls) = runLines s ls := by
  simp [runLines, h]

theorem runLines_cons_err (st : ParseState) (e : Error) (l : List Char)
    (ls : List (List Char)) (h : step st l = .error e) :
    runLines st (l :: ls) = .error e := by
  simp [runLines, h]

theorem runLines_append (st : ParseState) (a b : List (List Char)) :
    runLines st (a ++ b) =
      match runLines st a with
      | .ok s => runLines s b
      | .error e => .error e := by
  induction a generalizing st with
  | nil => simp [runLines]
  | cons l ls ih =>
    cases h : step st l with
    | ok s => rw [List.cons_append, runLines_cons_ok _ _ _ _ h, ih, runLines_cons_ok _ _ _ _ h]
    | error e => rw [List.cons_append, runLines_cons_err _ _ _ _ h, runLines_cons_err _ _ _ _ h]

theorem runLines_ok_of_lineOk (st : ParseState) (ls : List (List Char))
    (h : ∀ l ∈ ls, lineOk l) : ∃ st', runLines st ls = .ok st' := by
  induction ls generalizing st with
  | nil => exact ⟨st, rfl⟩
  | cons l ls ih =>
    obtain ⟨s1, hs1⟩ := step_ok_of_lineOk st l (h l (by simp))
    obtain ⟨st', hst⟩ := ih s1 (fun x hx => h x (by simp [hx]))
    exact ⟨st', by rw [runLines_cons_ok _ _ _ _ hs1, hst]⟩

theorem runLines_elf_of_ne (st st' : ParseState) (ls : List (List Char))
    (h : runLines st ls = .ok st')
    (hk : ∀ l ∈ ls, rustTrim (segKey l) ≠ str "BOOT2") : st'.elf_path = st.elf_path := by
  induction ls generalizing st with
  | nil => cases h; rfl
  | cons l ls ih =>
    cases hstep : step st l with
    | error e => rw [runLines_cons_err _ _ _ _ hstep] at h; cases h
    | ok s =>
      rw [runLines_cons_ok _ _ _ _ hstep] at h
      rw [ih s h (fun x hx => hk x (by simp [hx]))]
      exact step_ok_elf_ne st s l hstep (hk l (by simp))

theorem runLines_version_of_ne (st st' : ParseState) (ls : List (List Char))
    (h : runLines st ls = .ok st')
    (hk : ∀ l ∈ ls, rustTrim (segKey l) ≠ str "VER") : st'.version = st.version := by
  induction ls generalizing st with
  | nil => cases h; rfl
  | cons l ls ih =>
    cases hstep : step st l with
    | error e => rw [runLines_cons_err _ _ _ _ hstep] at h; cases h
    | ok s =>
      rw [runLines_cons_ok _ _ _ _ hstep] at h
      rw [ih s h (fun x hx => hk x (by simp [hx]))]
      exact step_ok_version_ne st s l hstep (hk l (by simp))

theorem runLines_vmode_of_ne (st st' : ParseState) (ls : List (List Char))
    (h : runLines st ls = .ok st')
    (hk : ∀ l ∈ ls, rustTrim (segKey l) ≠ str "VMODE") :
    st'.video_mode = st.video_mode := by
  induction ls generalizing st with
  | nil => cases h; rfl
  | cons l ls ih =>
    cases hstep : step st l with
    | error e => rw [runLines_cons_err _ _ _ _ hstep] at h; cases h
    | ok s =>
      rw [runLines_cons_ok _ _ _ _ hstep] at h
      rw [ih s h (fun x hx => hk x (by simp [hx]))]
      exact step_ok_vmode_ne st s l hstep (hk l (by simp))

theorem runLines_hdd_of_ne (st st' : ParseState) (ls : List (List Char))
    (h : runLines st ls = .ok st')
    (hk : ∀ l ∈ ls, rustTrim (segKey l) ≠ str "HDDUNITPOWER") :
    st'.hdd_unit_power = st.hdd_unit_power := by
  induction ls generalizing st with
  | nil => cases h; rfl
  | cons l ls ih =>
    cases hstep : step st l with
    | error e => rw [runLines_cons_err _ _ _ _ hstep] at h; cases h
    | ok s =>
      rw [runLines_cons_ok _ _ _ _ hstep] at h
      rw [ih s h (fun x hx => hk x (by simp [hx]))]
      exact step_ok_hdd_ne st s l hstep (hk l (by simp))

theorem step_mono_elf (st st' : ParseState) (l : List Char) (h : step st l = .ok st')
    (hs : st.elf_path.isSome) : st'.elf_path.isSome := by
  by_cases hk : rustTrim (segKey l) = str "BOOT2"
  · rw [step_ok_elf_eq st st' l h hk]
    rfl
  · rw [step_ok_elf_ne st st' l h hk]
    exact hs

theorem step_mono_version (st st' : ParseState) (l : List Char) (h : step st l = .ok st')
    (hs : st.version.isSome) : st'.version.isSome := by
  by_cases hk : rustTrim (segKey l) = str "VER"
  · rw [step_ok_version_eq st st' l h hk]
    rfl
  · rw [step_ok_version_ne st st' l h hk]
    exact hs

theorem step_mono_vmode (st st' : ParseState) (l : List Char) (h : step st l = .ok st')
    (hs : st.video_mode.isSome) : st'.video_mode.isSome := by
  by_cases hk : rustTrim (segKey l) = str "VMODE"
  · obtain ⟨m, _, hm⟩ := step_ok_vmode_eq st st' l h hk
    rw [hm]
    rfl
  · rw [step_ok_vmode_ne st st' l h hk]
    exact hs

theorem runLines_mono_elf (st st' : ParseState) (ls : List (List Char))
    (h : runLines st ls = .ok st') (hs : st.elf_path.isSome) : st'.elf_path.isSome := by
  induction ls generalizing st with
  | nil => cases h; exact hs
  | cons l ls ih =>
    cases hstep : step st l with
    | error e => rw [runLines_cons_err _ _ _ _ hstep] at h; cases h
    | ok s =>
      rw [runLines_cons_ok _ _ _ _ hstep] at h
      exact ih s h (step_mono_elf st s l hstep hs)

theorem runLines_mono_version (st st' : ParseState) (ls : List (List Char))
    (h : runLines st ls = .ok st') (hs : st.version.isSome) : st'.version.isSome := by
  induction ls generalizing st with
  | nil => cases h; exact hs
  | cons l ls ih =>
    cases hstep : step st l with
    | error e => rw [runLines_cons_err _ _ _ _ hstep] at h; cases h
    | ok s =>
      rw [runLines_cons_ok _ _ _ _ hstep] at h
      exact ih s h (step_mono_version st s l hstep hs)

theorem runLines_mono_vmode (st st' : ParseState) (ls : List (List Char))
    (h : runLines st ls = .ok st') (hs : st.video_mode.isSome) :
    st'.video_mode.isSome := by
  induction ls generalizing st with
  | nil => cases h; exact hs
  | cons l ls ih =>
    cases hstep : step st l with
    | error e => rw [runLines_cons_err _ _ _ _ hstep] at h; cases h
    | ok s =>
      rw [runLines_cons_ok _ _ _ _ hstep] at h
      exact ih s h (step_mono_vmode st s l hstep hs)

theorem runLines_elf_isSome_of_key (st st' : ParseState) (ls : List (List Char))
    (h : runLines st ls = .ok st')
    (hk : ∃ l ∈ ls, rustTrim (segKey l) = str "BOOT2") : st'.elf_path.isSome := by
  obtain ⟨l, hl, hkey⟩ := hk
  obtain ⟨a, b, rfl⟩ := List.append_of_mem hl
  rw [runLines_append] at h
  cases hra : runLines st a with
  | error e => simp only [hra] at h; cases h
  | ok s1 =>
    simp only [hra] at h
    cases hstep : step s1 l with
    | error e => rw [runLines_cons_err _ _ _ _ hstep] at h; cases h
    | ok s2 =>
      rw [runLines_cons_ok _ _ _ _ hstep] at h
      refine runLines_mono_elf s2 st' b h ?_
      rw [step_ok_elf_eq s1 s2 l hstep hkey]
      rfl

theorem runLines_version_isSome_of_key (st st' : ParseState) (ls : List (List Char))
    (h : runLines st ls = .ok st')
    (hk : ∃ l ∈ ls, rustTrim (segKey l) = str "VER") : st'.version.isSome := by
  obtain ⟨l, hl, hkey⟩ := hk
  obtain ⟨a, b, rfl⟩ := List.append_of_mem hl
  rw [runLines_append] at h
  cases hra : runLines st a with
  | error e => simp only [hra] at h; cases h
  | ok s1 =>
    simp only [hra] at h
    cases hstep : step s1 l with
    | error e => rw [runLines_cons_err _ _ _ _ hstep] at h; cases h
    | ok s2 =>
      rw [runLines_cons_ok _ _ _ _ hstep] at h
      refine runLines_mono_version s2 st' b h ?_
      rw [step_ok_version_eq s1 s2 l hstep hkey]
      rfl

theorem runLines_vmode_isSome_of_key (st st' : ParseState) (ls : List (List Char))
    (h : runLines st ls = .ok st')
    (hk : ∃ l ∈ ls, rustTrim (segKey l) = str "VMODE") : st'.video_mode.isSome := by
  obtain ⟨l, hl, hkey⟩ := hk
  obtain ⟨a, b, rfl⟩ := List.append_of_mem hl
  rw [runLines_append] at h
  cases hra : runLines st a with
  | error e => simp only [hra] at h; cases h
  | ok s1 =>
    simp only [hra] at h
    cases hstep : step s1 l with
    | error e => rw [runLines_cons_err _ _ _ _ hstep] at h; cases h
    | ok s2 =>
      rw [runLines_cons_ok _ _ _ _ hstep] at h
      obtain ⟨m, _, hm⟩ := step_ok_vmode_eq s1 s2 l hstep hkey
      refine runLines_mono_vmode s2 st' b h ?_
      rw [hm]
      rfl

/-! ### Lemmas about `finalize` and `parse` -/

theorem finalize_missing (st : ParseState)
    (h : st.elf_path = none ∨ st.version = none ∨ st.video_mode = none) :
    finalize st = .error .MissingField := by
  unfold finalize
  rcases h with h | h | h
  · rw [h]
  · rcases hE : st.elf_path with _ | p
    · rfl
    · rw [h]
  · rcases hE : st.elf_path with _ | p
    · rfl
    · rcases hV : st.version with _ | v
      · rfl
      · rw [h]

theorem finalize_ok_of_isSome (st : ParseState) (h1 : st.elf_path.isSome)
    (h2 : st.version.isSome) (h3 : st.video_mode.isSome) :
    ∃ r, finalize st = .ok r := by
  rcases hE : st.elf_path with _ | p
  · rw [hE] at h1; cases h1
  rcases hV : st.version with _ | v
  · rw [hV] at h2; cases h2
  rcases hM : st.video_mode with _ | m
  · rw [hM] at h3; cases h3
  exact ⟨⟨p, v, m, st.hdd_unit_power⟩, by unfold finalize; rw [hE, hV, hM]⟩

theorem finalize_ok_spec (st : ParseState) (r : SystemCnf) (h : finalize st = .ok r) :
    st.elf_path = some r.elf_path ∧ st.version = some r.version ∧
    st.video_mode = some r.video_mode ∧ r.hdd_unit_power = st.hdd_unit_power := by
  unfold finalize at h
  rcases hE : st.elf_path with _ | p <;> rw [hE] at h
  · cases h
  rcases hV : st.version with _ | v <;> rw [hV] at h
  · cases h
  rcases hM : st.video_mode with _ | m <;> rw [hM] at h
  · cases h
  cases h
  exact ⟨rfl, rfl, rfl, rfl⟩

theorem parse_ok_inv (raw : List Char) (r : SystemCnf) (h : parse raw = .ok r) :
    ∃ st', runLines initState (rustLines raw) = .ok st' ∧ finalize st' = .ok r := by
  unfold parse at h
  cases hr : runLines initState (rustLines raw) with
  | ok st' => rw [hr] at h; exact ⟨st', rfl, h⟩
  | error e => rw [hr] at h; cases h

/-! ### Processing the canonical lines that `encode` emits -/

theorem step_boot_line (st : ParseState) (P : List Char) (hP : '=' ∉ P)
    (hPl : trimLeft P = P) :
    step st (str "BOOT2 = " ++ P ++ str ";1") = .ok { st with elf_path := some P } := by
  have hnv : '=' ∉ ' ' :: (P ++ str ";1") := by
    intro hx
    rcases List.mem_cons.mp hx with hx | hx
    · cases hx
    rcases List.mem_append.mp hx with hx | hx
    · exact hP hx
    · exact absurd hx (by decide)
  have hs : splitChar '=' (str "BOOT2 = " ++ P ++ str ";1") =
      str "BOOT2 " :: (' ' :: (P ++ str ";1")) :: [] := by
    have hd : str "BOOT2 = " ++ P ++ str ";1" =
        str "BOOT2 " ++ '=' :: (' ' :: (P ++ str ";1")) := rfl
    rw [hd, splitChar_append_cons _ _ _ (by decide), splitChar_not_mem _ _ hnv]
  rw [step_eq_of_split _ _ _ _ _ hs, if_pos (by decide)]
  rw [rustTrim_value_boot P hPl, stripSuffix_append]

theorem step_ver_line (st : ParseState) (V : List Char) (hV : '=' ∉ V)
    (hVl : trimLeft V = V) (hVr : trimRight V = V) :
    step st (str "VER = " ++ V) = .ok { st with version := some V } := by
  have hnv : '=' ∉ ' ' :: V := by
    intro hx
    rcases List.mem_cons.mp hx with hx | hx
    · cases hx
    · exact hV hx
  have hs : splitChar '=' (str "VER = " ++ V) = str "VER " :: (' ' :: V) :: [] := by
    have hd : str "VER = " ++ V = str "VER " ++ '=' :: (' ' :: V) := rfl
    rw [hd, splitChar_append_cons _ _ _ (by decide), splitChar_not_mem _ _ hnv]
  rw [step_eq_of_split _ _ _ _ _ hs, if_neg (by decide), if_pos (by decide)]
  rw [rustTrim_value_plain V hVl hVr]

theorem step_vmode_line (st : ParseState) (m : VideoMode) :
    step st (str "VMODE = " ++ m.asStr) = .ok { st with video_mode := some m } := by
  cases m <;> rfl

theorem step_hdd_line (st : ParseState) (H : List Char) (hH : '=' ∉ H)
    (hHl : trimLeft H = H) (hHr : trimRight H = H) :
    step st (str "HDDUNITPOWER = " ++ H) =
      .ok { st with hdd_unit_power := some H } := by
  have hnv : '=' ∉ ' ' :: H := by
    intro hx
    rcases List.mem_cons.mp hx with hx | hx
    · cases hx
    · exact hH hx
  have hs : splitChar '=' (str "HDDUNITPOWER = " ++ H) =
      str "HDDUNITPOWER " :: (' ' :: H) :: [] := by
    have hd : str "HDDUNITPOWER = " ++ H = str "HDDUNITPOWER " ++ '=' :: (' ' :: H) := rfl
    rw [hd, splitChar_append_cons _ _ _ (by decide), splitChar_not_mem _ _ hnv]
  rw [step_eq_of_split _ _ _ _ _ hs, if_neg (by decide), if_neg (by decide),
    if_neg (by decide), if_pos (by decide)]
  rw [rustTrim_value_plain H hHl hHr]

theorem stripCr_assoc (a p : List Char) : stripCr (a ++ (p ++ ['\r'])) = a ++ p := by
  rw [← List.append_assoc, stripCr_concat]

theorem if_getLast_concat (ps : List (List Char)) :
    (if (ps ++ [([] : List Char)]).getLast? = some [] then (ps ++ [[]]).dropLast
      else ps ++ [[]]) = ps := by
  rw [if_pos (List.getLast?_concat _), List.dropLast_concat]

theorem rustLines_encode_none (P V : List Char) (m : VideoMode)
    (hP : '\n' ∉ P) (hV : '\n' ∉ V) :
    rustLines (encode ⟨P, V, m, none⟩) =
      [str "BOOT2 = " ++ P ++ str ";1", str "VER = " ++ V,
        str "VMODE = " ++ m.asStr] := by
  have e1 : encode ⟨P, V, m, none⟩ =
      (str "BOOT2 = " ++ ((P ++ str ";1") ++ ['\r'])) ++ '\n' ::
        ((str "VER = " ++ (V ++ ['\r'])) ++ '\n' ::
          ((str "VMODE = " ++ (m.asStr ++ ['\r'])) ++ '\n' :: ([] : List Char))) := by
    simp only [encode, List.append_assoc]
    rfl
  have h1 : '\n' ∉ str "BOOT2 = " ++ ((P ++ str ";1") ++ ['\r']) := by
    intro hx
    rcases List.mem_append.mp hx with hx | hx
    · exact absurd hx (by decide)
    rcases List.mem_append.mp hx with hx | hx
    · rcases List.mem_append.mp hx with hx | hx
      · exact hP hx
      · exact absurd hx (by decide)
    · exact absurd hx (by decide)
  have h2 : '\n' ∉ str "VER = " ++ (V ++ ['\r']) := by
    intro hx
    rcases List.mem_append.mp hx with hx | hx
    · exact absurd hx (by decide)
    rcases List.mem_append.mp hx with hx | hx
    · exact hV hx
    · exact absurd hx (by decide)
  have h3 : '\n' ∉ str "VMODE = " ++ (m.asStr ++ ['\r']) := by
    cases m <;> exact fun hx => absurd hx (by decide)
  have hsplit : splitChar '\n' (encode ⟨P, V, m, none⟩) =
      [str "BOOT2 = " ++ ((P ++ str ";1") ++ ['\r']),
        str "VER = " ++ (V ++ ['\r']),
        str "VMODE = " ++ (m.asStr ++ ['\r'])] ++ [[]] := by
    rw [e1, splitChar_append_cons _ _ _ h1, splitChar_append_cons _ _ _ h2,
      splitChar_append_cons _ _ _ h3]
    rfl
  simp only [rustLines]
  rw [hsplit, if_getLast_concat]
  simp only [List.map_cons, List.map_nil, stripCr_assoc]
  rw [← List.append_assoc]

theorem rustLines_encode_some (P V H : List Char) (m : VideoMode)
    (hP : '\n' ∉ P) (hV : '\n' ∉ V) (hH : '\n' ∉ H) :
    rustLines (encode ⟨P, V, m, some H⟩) =
      [str "BOOT2 = " ++ P ++ str ";1", str "VER = " ++ V,
        str "VMODE = " ++ m.asStr, str "HDDUNITPOWER = " ++ H] := by
  have e1 : encode ⟨P, V, m, some H⟩ =
      (str "BOOT2 = " ++ ((P ++ str ";1") ++ ['\r'])) ++ '\n' ::
        ((str "VER = " ++ (V ++ ['\r'])) ++ '\n' ::
          ((str "VMODE = " ++ (m.asStr ++ ['\r'])) ++ '\n' ::
            ((str "HDDUNITPOWER = " ++ (H ++ ['\r'])) ++ '\n' :: ([] : List Char)))) := by
    simp only [encode, List.append_assoc]
    rfl
  have h1 : '\n' ∉ str "BOOT2 = " ++ ((P ++ str ";1") ++ ['\r']) := by
    intro hx
    rcases List.mem_append.mp hx with hx | hx
    · exact absurd hx (by decide)
    rcases List.mem_append.mp hx with hx | hx
    · rcases List.mem_append.mp hx with hx | hx
      · exact hP hx
      · exact absurd hx (by decide)
    · exact absurd hx (by decide)
  have h2 : '\n' ∉ str "VER = " ++ (V ++ ['\r']) := by
    intro hx
    rcases List.mem_append.mp hx with hx | hx
    · exact absurd hx (by decide)
    rcases List.mem_append.mp hx with hx | hx
    · exact hV hx
    · exact absurd hx (by decide)
  have h3 : '\n' ∉ str "VMODE = " ++ (m.asStr ++ ['\r']) := by
    cases m <;> exact fun hx => absurd hx (by decide)
  have h4 : '\n' ∉ str "HDDUNITPOWER = " ++ (H ++ ['\r']) := by
    intro hx
    rcases List.mem_append.mp hx with hx | hx
    · exact absurd hx (by decide)
    rcases List.mem_append.mp hx with hx | hx
    · exact hH hx
    · exact absurd hx (by decide)
  have hsplit : splitChar '\n' (encode ⟨P, V, m, some H⟩) =
      [str "BOOT2 = " ++ ((P ++ str ";1") ++ ['\r']),
        str "VER = " ++ (V ++ ['\r']),
        str "VMODE = " ++ (m.asStr ++ ['\r']),
        str "HDDUNITPOWER = " ++ (H ++ ['\r'])] ++ [[]] := by
    rw [e1, splitChar_append_cons _ _ _ h1, splitChar_append_cons _ _ _ h2,
      splitChar_append_cons _ _ _ h3, splitChar_append_cons _ _ _ h4]
    rfl
  simp only [rustLines]
  rw [hsplit, if_getLast_concat]
  simp only [List.map_cons, List.map_nil, stripCr_assoc]
  rw [← List.append_assoc]

/-! ### Claim theorems -/

/-- C1 (counterexample): the round-trip claim fails as stated.  The byte
sequence `BOOT2 = a=b;1\r\nVER = 1.00\r\nVMODE = NTSC\r\n` is a canonical
encoding (it is `encode` of a record whose entry path is `a=b`), and decoding
it succeeds, but re-encoding the decoded record does not reproduce the bytes:
the `'='` inside the value makes the parser truncate the entry path to `a`. -/
theorem C1_counterexample :
    (∃ r : SystemCnf,
      encode r = str "BOOT2 = a=b;1\r\nVER = 1.00\r\nVMODE = NTSC\r\n") ∧
    (∃ r' : SystemCnf,
      parse (str "BOOT2 = a=b;1\r\nVER = 1.00\r\nVMODE = NTSC\r\n") = .ok r' ∧
      encode r' ≠ str "BOOT2 = a=b;1\r\nVER = 1.00\r\nVMODE = NTSC\r\n") := by
  constructor
  · exact ⟨⟨str "a=b", str "1.00", .Ntsc, none⟩, by decide⟩
  · exact ⟨⟨str "a", str "1.00", .Ntsc, none⟩, by decide, by decide⟩

/-- C1 (amended): for every byte sequence that is the canonical encoding of a
well-formed record — text fields free of newlines and `'='`, no leading
whitespace on the entry path, no surrounding whitespace on the version and
power-flag values — decoding recovers exactly that record, so re-encoding
reproduces exactly the original bytes, line endings and field order
included. -/
theorem C1_roundtrip_wellformed (r : SystemCnf) (h : WellFormed r) :
    parse (encode r) = .ok r := by
  obtain ⟨P, V, m, hdd⟩ := r
  obtain ⟨hPn, hPe, hPl, hVn, hVe, hVl, hVr, hH⟩ := h
  cases hdd with
  | none =>
    have hrun : runLines initState
        [str "BOOT2 = " ++ P ++ str ";1", str "VER = " ++ V,
          str "VMODE = " ++ m.asStr] = .ok ⟨some P, some V, some m, none⟩ := by
      rw [runLines_cons_ok _ _ _ _ (step_boot_line initState P hPe hPl),
        runLines_cons_ok _ _ _ _ (step_ver_line _ V hVe hVl hVr),
        runLines_cons_ok _ _ _ _ (step_vmode_line _ m), runLines_nil]
      rfl
    unfold parse
    rw [rustLines_encode_none P V m hPn hVn, hrun]
    rfl
  | some H =>
    obtain ⟨hHn, hHe, hHl, hHr⟩ :=
      (hH : '\n' ∉ H ∧ '=' ∉ H ∧ trimLeft H = H ∧ trimRight H = H)
    have hrun : runLines initState
        [str "BOOT2 = " ++ P ++ str ";1", str "VER = " ++ V,
          str "VMODE = " ++ m.asStr, str "HDDUNITPOWER = " ++ H] =
        .ok ⟨some P, some V, some m, some H⟩ := by
      rw [runLines_cons_ok _ _ _ _ (step_boot_line initState P hPe hPl),
        runLines_cons_ok _ _ _ _ (step_ver_line _ V hVe hVl hVr),
        runLines_cons_ok _ _ _ _ (step_vmode_line _ m),
        runLines_cons_ok _ _ _ _ (step_hdd_line _ H hHe hHl hHr), runLines_nil]
    unfold parse
    rw [rustLines_encode_some P V H m hPn hVn hHn, hrun]
    rfl

/-- C1 (witness): the amended round-trip theorem applied to the repository's
own test record. -/
theorem C1_witness :
    parse (encode ⟨str "cdrom0:\\SLUS_213.48", str "1.00", .Ntsc, none⟩) =
      .ok ⟨str "cdrom0:\\SLUS_213.48", str "1.00", .Ntsc, none⟩ :=
  C1_roundtrip_wellformed _
    ⟨by decide, by decide, by decide, by decide, by decide, by decide, by decide,
      by trivial⟩

/-- C2: decoding a line `BOOT2 = X;1` stores `elf_path = X` (the `;1`
disc-session suffix is stripped after trimming), and encoding any record with
`elf_path = X` emits `BOOT2 = X;1` followed by CRLF as its first line.  `X`
ranges over values free of `'='` and without leading whitespace, as any value
surviving the split-and-trim of the parser must be. -/
theorem C2_suffix_normalization (X : List Char) (h1 : '=' ∉ X)
    (h2 : trimLeft X = X) :
    (∀ st : ParseState,
      step st (str "BOOT2 = " ++ X ++ str ";1") = .ok { st with elf_path := some X }) ∧
    (∀ r : SystemCnf, r.elf_path = X →
      ∃ t, encode r = str "BOOT2 = " ++ X ++ str ";1\r\n" ++ t) := by
  refine ⟨fun st => step_boot_line st X h1 h2, fun r hr => ?_⟩
  subst hr
  obtain ⟨p, v, m, hdd⟩ := r
  cases hdd with
  | none =>
    refine ⟨str "VER = " ++ v ++ str "\r\nVMODE = " ++ m.asStr ++ str "\r\n", ?_⟩
    simp only [encode, List.append_assoc]
    rfl
  | some hp =>
    refine ⟨str "VER = " ++ v ++ str "\r\nVMODE = " ++ m.asStr ++ str "\r\n" ++
      (str "HDDUNITPOWER = " ++ hp ++ str "\r\n"), ?_⟩
    simp only [encode, List.append_assoc]
    rfl

/-- C2 (witness): suffix normalization at the test entry path. -/
theorem C2_witness :
    step initState (str "BOOT2 = cdrom0:\\SLUS_213.48;1") =
      .ok { initState with elf_path := some (str "cdrom0:\\SLUS_213.48") } :=
  (C2_suffix_normalization (str "cdrom0:\\SLUS_213.48") (by decide) (by decide)).1
    initState

/-- C4: the parser keeps only the first two segments of the `'='`-split.  For
a line `a=b=c` (with `a` and `b` free of `'='`) the split yields `a` as key
and `b` as value, and the processing of the line is identical to that of the
shorter line `a=b`: everything from the second `'='` on is discarded. -/
theorem C4_value_truncation (st : ParseState) (a b c : List Char)
    (ha : '=' ∉ a) (hb : '=' ∉ b) :
    splitChar '=' (a ++ '=' :: (b ++ '=' :: c)) = a :: b :: splitChar '=' c ∧
    step st (a ++ '=' :: (b ++ '=' :: c)) = step st (a ++ '=' :: b) := by
  have hs1 : splitChar '=' (a ++ '=' :: (b ++ '=' :: c)) = a :: b :: splitChar '=' c := by
    rw [splitChar_append_cons _ _ _ ha, splitChar_append_cons _ _ _ hb]
  have hs2 : splitChar '=' (a ++ '=' :: b) = a :: b :: [] := by
    rw [splitChar_append_cons _ _ _ ha, splitChar_not_mem _ _ hb]
  refine ⟨hs1, ?_⟩
  rcases hrest : splitChar '=' c with _ | ⟨p, ps⟩
  · exact absurd hrest (splitChar_ne_nil _ _)
  · rw [step_eq_of_split st _ a b (p :: ps) (by rw [hs1, hrest]),
      step_eq_of_split st _ a b [] hs2]

/-- C4 (witness): truncation on the concrete line `VER = a =b`. -/
theorem C4_witness :
    splitChar '=' (str "VER " ++ '=' :: (str " a " ++ '=' :: str "b")) =
      str "VER " :: str " a " :: splitChar '=' (str "b") ∧
    step initState (str "VER " ++ '=' :: (str " a " ++ '=' :: str "b")) =
      step initState (str "VER " ++ '=' :: str " a ") :=
  C4_value_truncation initState (str "VER ") (str " a ") (str "b") (by decide)
    (by decide)

/-- C5: the video-standard mapping is a bijection on `{NTSC, PAL}` — parsing
a canonical name and formatting the result gives the name back, formatting a
variant and parsing the result gives the variant back — and any string whose
trimmed form is neither name is rejected with `UnknownVideoMode`. -/
theorem C5_videomode_bijection :
    ((VideoMode.fromStr (str "NTSC")).map VideoMode.asStr = .ok (str "NTSC") ∧
     (VideoMode.fromStr (str "PAL")).map VideoMode.asStr = .ok (str "PAL")) ∧
    (∀ v : VideoMode, VideoMode.fromStr v.asStr = .ok v) ∧
    (∀ s : List Char, rustTrim s ≠ str "NTSC" → rustTrim s ≠ str "PAL" →
      VideoMode.fromStr s = .error .UnknownVideoMode) := by
  refine ⟨⟨by decide, by decide⟩, fun v => by cases v <;> decide, fun s hn hp => ?_⟩
  unfold VideoMode.fromStr
  rw [if_neg hn, if_neg hp]

/-- C5 (witness): a third video-standard name is rejected. -/
theorem C5_witness : VideoMode.fromStr (str "SECAM") = .error .UnknownVideoMode :=
  C5_videomode_bijection.2.2 (str "SECAM") (by decide) (by decide)

theorem runLines_append_ok (st s : ParseState) (a b : List (List Char))
    (h : runLines st a = .ok s) : runLines st (a ++ b) = runLines s b := by
  rw [runLines_append, h]

/-- C3 (counterexample): the empty-line-tolerance claim fails as stated.  In
`c3input` all three required keys appear with well-formed values and every
non-empty line contains an `'='`, yet decoding fails with `MalformedFile`:
the loop iterates over the empty line too, and splitting the empty line on
`'='` yields a single segment, so the second `next()` fails. -/
theorem C3_counterexample :
    (∀ l ∈ rustLines c3input, l ≠ [] → '=' ∈ l) ∧
    (∃ l ∈ rustLines c3input, rustTrim (segKey l) = str "BOOT2") ∧
    (∃ l ∈ rustLines c3input, rustTrim (segKey l) = str "VER") ∧
    (∃ l ∈ rustLines c3input, rustTrim (segKey l) = str "VMODE") ∧
    (∀ l ∈ rustLines c3input, rustTrim (segKey l) = str "VMODE" →
      VideoMode.fromStr (segVal l) ≠ .error .UnknownVideoMode) ∧
    parse c3input = .error .MalformedFile := by
  decide

/-- C3 (amended): decode succeeds on every input in which all three required
keys appear with well-formed values and *every* line — empty lines included,
so in particular there are none — contains an `'='`.  (Empty lines are not
skipped by the loop: an empty line is itself a `MalformedFile` failure, as
the counterexample shows.) -/
theorem C3_decode_success (raw : List Char)
    (hok : ∀ l ∈ rustLines raw, lineOk l)
    (hboot : ∃ l ∈ rustLines raw, rustTrim (segKey l) = str "BOOT2")
    (hver : ∃ l ∈ rustLines raw, rustTrim (segKey l) = str "VER")
    (hvm : ∃ l ∈ rustLines raw, rustTrim (segKey l) = str "VMODE") :
    ∃ r, parse raw = .ok r := by
  obtain ⟨st', hrun⟩ := runLines_ok_of_lineOk initState _ hok
  obtain ⟨r, hfin⟩ := finalize_ok_of_isSome st'
    (runLines_elf_isSome_of_key _ _ _ hrun hboot)
    (runLines_version_isSome_of_key _ _ _ hrun hver)
    (runLines_vmode_isSome_of_key _ _ _ hrun hvm)
  refine ⟨r, ?_⟩
  unfold parse
  rw [hrun]
  exact hfin

/-- C3 (witness): the amended theorem applied to the repository's test
input. -/
theorem C3_witness : ∃ r, parse testCnf = .ok r :=
  C3_decode_success testCnf (by decide) (by decide) (by decide) (by decide)

/-- C6: decoding text whose lines all process cleanly but in which one of the
keys `BOOT2`, `VER`, `VMODE` never occurs leaves the corresponding required
slot unset, and decode fails with `MissingField`. -/
theorem C6_missing_field (raw : List Char)
    (hok : ∀ l ∈ rustLines raw, lineOk l)
    (habs : (∀ l ∈ rustLines raw, rustTrim (segKey l) ≠ str "BOOT2") ∨
      (∀ l ∈ rustLines raw, rustTrim (segKey l) ≠ str "VER") ∨
      (∀ l ∈ rustLines raw, rustTrim (segKey l) ≠ str "VMODE")) :
    parse raw = .error .MissingField := by
  obtain ⟨st', hrun⟩ := runLines_ok_of_lineOk initState _ hok
  unfold parse
  rw [hrun]
  show finalize st' = .error .MissingField
  apply finalize_missing
  rcases habs with h | h | h
  · exact Or.inl (runLines_elf_of_ne _ _ _ hrun h)
  · exact Or.inr (Or.inl (runLines_version_of_ne _ _ _ hrun h))
  · exact Or.inr (Or.inr (runLines_vmode_of_ne _ _ _ hrun h))

/-- C6 (witness): an input omitting `BOOT2` fails with `MissingField`. -/
theorem C6_witness :
    parse (str "VER = 1.00\r\nVMODE = NTSC\r\n") = .error .MissingField :=
  C6_missing_field _ (by decide) (Or.inl (by decide))

/-- C7 (counterexample): the malformed-line claim fails as stated.  `c7input`
contains a line with no `'='`, but decoding fails with `UnknownVideoMode`,
not `MalformedFile`: the bad `VMODE` value on an earlier line aborts the scan
first. -/
theorem C7_counterexample :
    (∃ l ∈ rustLines c7input, '=' ∉ l) ∧
    parse c7input ≠ .error .MalformedFile ∧
    parse c7input = .error .UnknownVideoMode := by
  decide

/-- C7 (amended): decoding text containing a line with no `'='` fails with
`MalformedFile`, provided every line before the offending one processes
without error (otherwise the earlier error — necessarily `UnknownVideoMode` —
is reported instead, as the counterexample shows). -/
theorem C7_malformed_line (raw : List Char) (ls1 : List (List Char))
    (bad : List Char) (rest : List (List Char))
    (hdec : rustLines raw = ls1 ++ bad :: rest)
    (h1 : ∀ l ∈ ls1, lineOk l) (h2 : '=' ∉ bad) :
    parse raw = .error .MalformedFile := by
  obtain ⟨s1, hs1⟩ := runLines_ok_of_lineOk initState ls1 h1
  unfold parse
  rw [hdec, runLines_append_ok _ _ _ _ hs1,
    runLines_cons_err _ _ _ _ (step_no_eq s1 bad h2)]

/-- C7 (witness): a `'='`-less first line fails with `MalformedFile`. -/
theorem C7_witness :
    parse (str "nokey\r\nVER = 1.00\r\n") = .error .MalformedFile :=
  C7_malformed_line _ [] (str "nokey") [str "VER = 1.00"] (by decide) (by decide)
    (by decide)

/-- C8: unknown-key lines are ignored (processing one is the identity on the
accumulator), decoding without any `HDDUNITPOWER` line leaves the power flag
absent, and encoding a record with an absent power flag emits exactly the
three required lines and no `HDDUNITPOWER` line. -/
theorem C8_unknown_key_tolerance :
    (∀ (st : ParseState) (l : List Char), '=' ∈ l →
      rustTrim (segKey l) ≠ str "BOOT2" → rustTrim (segKey l) ≠ str "VER" →
      rustTrim (segKey l) ≠ str "VMODE" →
      rustTrim (segKey l) ≠ str "HDDUNITPOWER" → step st l = .ok st) ∧
    (∀ (raw : List Char) (r : SystemCnf), parse raw = .ok r →
      (∀ l ∈ rustLines raw, rustTrim (segKey l) ≠ str "HDDUNITPOWER") →
      r.hdd_unit_power = none) ∧
    (∀ r : SystemCnf, r.hdd_unit_power = none →
      encode r = str "BOOT2 = " ++ r.elf_path ++ str ";1\r\nVER = " ++ r.version ++
        str "\r\nVMODE = " ++ r.video_mode.asStr ++ str "\r\n") := by
  refine ⟨step_ok_unrecognized, ?_, ?_⟩
  · intro raw r hp hk
    obtain ⟨st', hrun, hfin⟩ := parse_ok_inv raw r hp
    rw [(finalize_ok_spec st' r hfin).2.2.2, runLines_hdd_of_ne _ _ _ hrun hk]
    rfl
  · intro r hr
    obtain ⟨p, v, m, hdd⟩ := r
    cases hdd with
    | none => simp only [encode, List.append_nil]
    | some hp => exact Option.noConfusion hr

/-- C8 (witness): the unrecognized line `FOO = BAR` leaves the accumulator
unchanged. -/
theorem C8_witness : step initState (str "FOO = BAR") = .ok initState :=
  C8_unknown_key_tolerance.1 initState (str "FOO = BAR") (by decide) (by decide)
    (by decide) (by decide) (by decide)

/-- C9: when a recognized key among `BOOT2`, `VER`, `HDDUNITPOWER` occurs on
several lines, the stored value is the one computed from the last occurrence
(the lines after it carrying other keys), because each occurrence overwrites
the slot; and a `VMODE` line whose value does not parse aborts the scan with
`UnknownVideoMode` no matter what lines — including valid `VMODE` lines —
come before (processing cleanly) or after it. -/
theorem C9_last_occurrence_wins :
    (∀ (st : ParseState) (ls1 : List (List Char)) (l : List Char)
        (ls2 : List (List Char)), (∀ x ∈ ls1, lineOk x) → '=' ∈ l →
      rustTrim (segKey l) = str "BOOT2" →
      (∀ x ∈ ls2, lineOk x ∧ rustTrim (segKey x) ≠ str "BOOT2") →
      ∃ st', runLines st (ls1 ++ l :: ls2) = .ok st' ∧
        st'.elf_path = some (stripSuffix (str ";1") (rustTrim (segVal l)))) ∧
    (∀ (st : ParseState) (ls1 : List (List Char)) (l : List Char)
        (ls2 : List (List Char)), (∀ x ∈ ls1, lineOk x) → '=' ∈ l →
      rustTrim (segKey l) = str "VER" →
      (∀ x ∈ ls2, lineOk x ∧ rustTrim (segKey x) ≠ str "VER") →
      ∃ st', runLines st (ls1 ++ l :: ls2) = .ok st' ∧
        st'.version = some (rustTrim (segVal l))) ∧
    (∀ (st : ParseState) (ls1 : List (List Char)) (l : List Char)
        (ls2 : List (List Char)), (∀ x ∈ ls1, lineOk x) → '=' ∈ l →
      rustTrim (segKey l) = str "HDDUNITPOWER" →
      (∀ x ∈ ls2, lineOk x ∧ rustTrim (segKey x) ≠ str "HDDUNITPOWER") →
      ∃ st', runLines st (ls1 ++ l :: ls2) = .ok st' ∧
        st'.hdd_unit_power = some (rustTrim (segVal l))) ∧
    (∀ (st : ParseState) (ls1 : List (List Char)) (l : List Char)
        (ls2 : List (List Char)), (∀ x ∈ ls1, lineOk x) → '=' ∈ l →
      rustTrim (segKey l) = str "VMODE" →
      VideoMode.fromStr (segVal l) = .error .UnknownVideoMode →
      runLines st (ls1 ++ l :: ls2) = .error .UnknownVideoMode) := by
  refine ⟨?_, ?_, ?_, ?_⟩
  · intro st ls1 l ls2 h1 hmem hkey h2
    obtain ⟨s1, hs1⟩ := runLines_ok_of_lineOk st ls1 h1
    have hok : lineOk l := by
      refine ⟨hmem, fun hVM => ?_⟩
      exact absurd (hkey.symm.trans hVM) (by decide)
    obtain ⟨s2, hs2⟩ := step_ok_of_lineOk s1 l hok
    obtain ⟨st', hst'⟩ := runLines_ok_of_lineOk s2 ls2 (fun x hx => (h2 x hx).1)
    refine ⟨st', ?_, ?_⟩
    · rw [runLines_append_ok _ _ _ _ hs1, runLines_cons_ok _ _ _ _ hs2, hst']
    · rw [runLines_elf_of_ne _ _ _ hst' (fun x hx => (h2 x hx).2),
        step_ok_elf_eq s1 s2 l hs2 hkey]
  · intro st ls1 l ls2 h1 hmem hkey h2
    obtain ⟨s1, hs1⟩ := runLines_ok_of_lineOk st ls1 h1
    have hok : lineOk l := by
      refine ⟨hmem, fun hVM => ?_⟩
      exact absurd (hkey.symm.trans hVM) (by decide)
    obtain ⟨s2, hs2⟩ := step_ok_of_lineOk s1 l hok
    obtain ⟨st', hst'⟩ := runLines_ok_of_lineOk s2 ls2 (fun x hx => (h2 x hx).1)
    refine ⟨st', ?_, ?_⟩
    · rw [runLines_append_ok _ _ _ _ hs1, runLines_cons_ok _ _ _ _ hs2, hst']
    · rw [runLines_version_of_ne _ _ _ hst' (fun x hx => (h2 x hx).2),
        step_ok_version_eq s1 s2 l hs2 hkey]
  · intro st ls1 l ls2 h1 hmem hkey h2
    obtain ⟨s1, hs1⟩ := runLines_ok_of_lineOk st ls1 h1
    have hok : lineOk l := by
      refine ⟨hmem, fun hVM => ?_⟩
      exact absurd (hkey.symm.trans hVM) (by decide)
    obtain ⟨s2, hs2⟩ := step_ok_of_lineOk s1 l hok
    obtain ⟨st', hst'⟩ := runLines_ok_of_lineOk s2 ls2 (fun x hx => (h2 x hx).1)
    refine ⟨st', ?_, ?_⟩
    · rw [runLines_append_ok _ _ _ _ hs1, runLines_cons_ok _ _ _ _ hs2, hst']
    · rw [runLines_hdd_of_ne _ _ _ hst' (fun x hx => (h2 x hx).2),
        step_ok_hdd_eq s1 s2 l hs2 hkey]
  · intro st ls1 l ls2 h1 hmem hkey hbad
    obtain ⟨s1, hs1⟩ := runLines_ok_of_lineOk st ls1 h1
    rw [runLines_append_ok _ _ _ _ hs1,
      runLines_cons_err _ _ _ _ (step_unknown s1 l hmem hkey hbad)]

/-- C9 (witness): of two `BOOT2` lines the later one determines the stored
entry path. -/
theorem C9_witness :
    ∃ st', runLines initState ([str "BOOT2 = old;1"] ++ str "BOOT2 = new;1" :: []) =
        .ok st' ∧
      st'.elf_path =
        some (stripSuffix (str ";1") (rustTrim (segVal (str "BOOT2 = new;1")))) :=
  C9_last_occurrence_wins.1 initState [str "BOOT2 = old;1"] (str "BOOT2 = new;1") []
    (by decide) (by decide) (by decide) (by decide)

/-- C10: splitting any line on `'='` always yields at least one segment, so
the first `ok_or(MalformedFile)` guarding the key can never fire; a
`MalformedFile` from processing a line can only mean the line had no `'='`
(no second segment). -/
theorem C10_first_check_unreachable :
    (∀ (sep : Char) (l : List Char), ∃ k ks, splitChar sep l = k :: ks) ∧
    (∀ (st : ParseState) (l : List Char),
      step st l = .error .MalformedFile → '=' ∉ l) := by
  constructor
  · intro sep l
    rcases h : splitChar sep l with _ | ⟨k, ks⟩
    · exact absurd h (splitChar_ne_nil _ _)
    · exact ⟨k, ks, rfl⟩
  · exact step_malformed_not_mem

/-- C10 (witness): a concrete `MalformedFile` line indeed has no `'='`. -/
theorem C10_witness : '=' ∉ str "just a line" :=
  C10_first_check_unreachable.2 initState (str "just a line") (by decide)
